import Mathlib

/-!
Verification of the surrogate-model abstraction layer of the `baybe`
Bayesian-optimization toolkit (`baybe/surrogate.py`).

The embedding works over exact rationals (`ℚ`): a vector is a `List ℚ`, a
matrix is a `List (List ℚ)` (a list of rows).  Tensor shapes that matter only
through validation checks (`y.shape[1]`) are carried explicitly.  Fallible
operations (Python `raise`) are embedded as `Except SurrogateError`.
-/

namespace Baybe

/-- The two exception classes raised by the surrogate layer. -/
inductive SurrogateError where
  | valueError (msg : String)
  | notImplementedError (msg : String)
  deriving DecidableEq, Repr

/-- `_MIN_TARGET_STD = 1e-6` from `surrogate.py`. -/
def MIN_TARGET_STD : ℚ := 1 / 1000000

/-- `_MIN_VARIANCE = 1e-6` from `surrogate.py`. -/
def MIN_VARIANCE : ℚ := 1 / 1000000

/-- Entry `(i, j)` of a row-list matrix (0 outside the stored range),
embedding `m[i, j]` of a torch tensor. -/
def entry (m : List (List ℚ)) (i j : Nat) : ℚ :=
  (m.getD i []).getD j 0

/-- `torch.eye(n)`: the `n × n` identity matrix. -/
def eye (n : Nat) : List (List ℚ) :=
  (List.range n).map fun i => (List.range n).map fun j => if i = j then 1 else 0

/-- Multiplication of a tensor by a scalar, `t * c`. -/
def matScale (c : ℚ) (m : List (List ℚ)) : List (List ℚ) :=
  m.map (List.map (c * ·))

/-- Elementwise addition of two same-shape matrices, `a.add_(b)`. -/
def matAdd (a b : List (List ℚ)) : List (List ℚ) :=
  List.zipWith (fun ra rb => List.zipWith (· + ·) ra rb) a b

/-- `covar.shape[-1]` of a (well-formed, square) covariance matrix stored as a
row list: the length of its first row. -/
def shapeLast (m : List (List ℚ)) : Nat :=
  (m.headD []).length

/-- `torch.diag_embed(var)` for a rank-1 input: the diagonal matrix whose
diagonal is the given variance vector (embeds `_var_to_covar`). -/
def var_to_covar (v : List ℚ) : List (List ℚ) :=
  (List.range v.length).map fun i =>
    (List.range v.length).map fun j => if i = j then v.getD i 0 else 0

/-- `covar.add_(torch.eye(covar.shape[-1]) * _MIN_VARIANCE)` from
`SurrogateModel.posterior`: the numerical-stability diagonal padding. -/
def add_min_variance (covar : List (List ℚ)) : List (List ℚ) :=
  matAdd covar (matScale MIN_VARIANCE (eye (shapeLast covar)))

/-- A two-dimensional tensor with an explicit column count, so that
`y.shape[1]` is meaningful even when the tensor has zero rows
(e.g. `torch.empty(0, 1)`). Well-formedness (`rows` all of length `ncols`)
is a separate predicate. -/
structure QMatrix where
  rows : List (List ℚ)
  ncols : Nat
  deriving DecidableEq, Repr

/-- Shape well-formedness of a `QMatrix`. -/
def QMatrix.WF (m : QMatrix) : Prop :=
  ∀ r ∈ m.rows, r.length = m.ncols

instance (m : QMatrix) : Decidable m.WF := by
  unfold QMatrix.WF; infer_instance

/-- Embeds `_prepare_inputs`: rejects empty model input (`len(x) == 0`); the
cast to `float64` is the identity in exact arithmetic. -/
def prepare_inputs (x : List (List ℚ)) : Except SurrogateError (List (List ℚ)) :=
  if x.length = 0 then
    .error (.valueError "The model input must be non-empty.")
  else
    .ok x

/-- Embeds `_prepare_targets`: rejects targets whose second shape entry
(`y.shape[1]`) differs from 1; the dtype cast is the identity. -/
def prepare_targets (y : QMatrix) : Except SurrogateError QMatrix :=
  if y.ncols ≠ 1 then
    .error (.notImplementedError
      "The model currently supports only one target or multiple targets in DESIRABILITY mode.")
  else
    .ok y

/-- Substring test, embedding Python `sub in s`. -/
def strContainsSub (s sub : String) : Bool :=
  s.toList.tails.any fun t => sub.toList.isPrefixOf t

/-- The error message built by `validate_model_params` for invalid keys. -/
def invalidParamsMsg (model : String) (invalidKeys : List String) : String :=
  "Invalid model params for " ++ model ++ ": " ++ String.intercalate ", " invalidKeys ++ "."

/-- Embeds `validate_model_params` produced by `_get_model_params_validator`:
`model` is the class name (`obj.__class__.__name__`), `varnames` the
`model_init.__code__.co_varnames` tuple of the wrapped routine, and
`model_params` the keys of the hyperparameter mapping (dict keys, in order).
GPs accept no params at all; otherwise every key must occur in `varnames`. -/
def validate_model_params (model : String) (varnames : List String)
    (model_params : List String) : Except SurrogateError Unit :=
  if strContainsSub model "GaussianProcess" ∧ model_params ≠ [] then
    .error (.valueError (model ++ " does not support model params."))
  else
    let invalid := model_params.filter fun key => key ∉ varnames
    if invalid ≠ [] then
      .error (.valueError (invalidParamsMsg model invalid))
    else
      .ok ()

/-! ### Reshaping

`torch.reshape` of a flat (row-major) buffer into rows of length `q` is
splitting into consecutive chunks of `q` elements.  The fuel-based recursion
(fuel = initial length) keeps the definition structurally recursive. -/

/-- Auxiliary chunk splitter with explicit fuel. -/
def chunksAux (q : Nat) : Nat → List α → List (List α)
  | _, [] => []
  | 0, _ :: _ => []
  | fuel + 1, a :: l =>
      if q = 0 then []
      else (a :: l).take q :: chunksAux q fuel ((a :: l).drop q)

/-- Split a list into consecutive chunks of length `q` (row-major reshape
into rows of length `q`). -/
def chunks (q : Nat) (l : List α) : List (List α) :=
  chunksAux q l.length l

/-! ### Batch sequentialization (`batchify.sequential_posterior`)

The two branches below embed `sequential_posterior` for a rank-3 candidate
tensor of shape `(T, Q, D)` (one leading t-batch dimension — the shape the
spec's batching claims quantify over).  For such a tensor, `t_shape = (T,)`
and `q_shape = candidates.shape[-2] = Q`, `candidates.flatten(end_dim=-3)` is
the tensor itself, and `torch.reshape(torch.stack(xs), (T,) + s)` rebuilds
rows of the row-major stacked data.  The `ndim == 2` case of the source calls
`posterior` directly and needs no embedding. -/

/-- Joint branch (`model.joint_posterior == True`): call the posterior
t-batch by t-batch, stack the per-batch means/covariances and restore the
batch dimensions. -/
def sequential_posterior_joint
    (posterior : List (List ℚ) → List ℚ × List (List ℚ))
    (candidates : List (List (List ℚ))) :
    List (List ℚ) × List (List (List ℚ)) :=
  let q := (candidates.headD []).length
  let out := candidates.map posterior
  let mean := chunks q (out.map Prod.fst).flatten
  let covar := chunks q (chunks q (out.map (fun p => p.2.flatten)).flatten)
  (mean, covar)

/-- Marginal branch (`model.joint_posterior == False`): flatten *all* batch
dimensions into the q-batch axis, call the posterior once, and reshape the
resulting mean/variance vectors back to `(T, Q)`. -/
def sequential_posterior_marginal
    (posterior : List (List ℚ) → List ℚ × List ℚ)
    (candidates : List (List (List ℚ))) :
    List (List ℚ) × List (List ℚ) :=
  let q := (candidates.headD []).length
  let flattened := candidates.flatten
  let mv := posterior flattened
  (chunks q mv.1, chunks q mv.2)

/-! ### Concrete fallback model and the degenerate-data guard -/

/-- `MeanPredictionModel` after fitting: stores `target_value`
(`train_y.mean().item()`).  The transient pre-fit `None` state is not
modelled: in `SplitModel._fit` a fresh instance is fitted immediately after
construction, and `posterior` before any `fit` is undefined behaviour. -/
structure MeanPredictionModel where
  target_value : ℚ
  deriving DecidableEq, Repr

/-- `train_y.mean().item()`: the mean over all entries of a tensor. -/
def tensorMean (y : QMatrix) : ℚ :=
  y.rows.flatten.sum / (y.rows.flatten.length : ℚ)

/-- `MeanPredictionModel._fit`: stores the training-target mean. -/
def MeanPredictionModel.fitted (train_y : QMatrix) : MeanPredictionModel :=
  ⟨tensorMean train_y⟩

/-- `MeanPredictionModel._posterior` (the raw body under `batchify`; for
rank-2 candidates `batchify` calls it directly): constant mean
`self.target_value * torch.ones(len(candidates))` and unit variance
`torch.ones(len(candidates))`. -/
def MeanPredictionModel.rawPosterior (m : MeanPredictionModel)
    (candidates : List (List ℚ)) : List ℚ × List ℚ :=
  (List.replicate candidates.length m.target_value,
   List.replicate candidates.length 1)

/-- `train_y.ravel()`: the flat list of entries of the target tensor. -/
def ravel (y : QMatrix) : List ℚ :=
  y.rows.flatten

/-- Population variance (`unbiased=False`): mean squared deviation from the
mean (0 for the empty list by `ℚ`-division convention). -/
def popVariance (v : List ℚ) : ℚ :=
  ((v.map fun x => (x - v.sum / (v.length : ℚ)) ^ 2).sum) / (v.length : ℚ)

/-- The guard condition `torch.std(train_y.ravel(), unbiased=False) <
_MIN_TARGET_STD` of `SplitModel._fit`, expressed on squares to stay inside
`ℚ`: for a nonempty target list both sides are nonnegative, so
`std < 1e-6 ↔ std² < (1e-6)²`, and `std²` is the population variance.
(For an empty target list torch yields `NaN`, i.e. `False`; the facade's
validation makes that state unreachable and theorems assume nonempty
targets.) -/
def targetsDegenerate (v : List ℚ) : Bool :=
  popVariance v < MIN_TARGET_STD ^ 2

/-- The second component of a raw `_posterior` result: a marginal variance
vector (rank 1) or a full covariance matrix (rank 2), according to the
family's `joint_posterior` flag. -/
inductive RawCov where
  | variance (v : List ℚ)
  | covariance (m : List (List ℚ))
  deriving DecidableEq, Repr

/-- `self.model` of a `SplitModel` instance: either an instance of the
wrapped family (abstract fitted state of type `σ`) or the substituted
`MeanPredictionModel` fallback. -/
inductive SplitModelState (σ : Type) where
  | original (state : σ)
  | fallback (m : MeanPredictionModel)
  deriving DecidableEq, Repr

/-- `SplitModel._fit`: if the population standard deviation of the flattened
targets is below `_MIN_TARGET_STD`, replace the active model by a fresh
`MeanPredictionModel` (placeholder value, overwritten by the fit below);
then fit whichever model is active on the training data.  `famFit` is the
wrapped family's fit primitive, abstract because the wrapped regressors are
external libraries.  The inner `self.model.fit` re-runs the public
validation on data the outer facade `fit` has already validated (nonempty
`x`, one-column `y`, discrete search space), where it is the identity. -/
def SplitModel.fitInner {σ : Type} (famFit : List (List ℚ) → QMatrix → σ)
    (s : SplitModelState σ) (train_x : List (List ℚ)) (train_y : QMatrix) :
    SplitModelState σ :=
  let active := if targetsDegenerate (ravel train_y) then
      SplitModelState.fallback ⟨0⟩
    else s
  match active with
  | .original _ => .original (famFit train_x train_y)
  | .fallback _ => .fallback (MeanPredictionModel.fitted train_y)

/-- `SplitModel._posterior`: delegate to the active inner model; when a
joint posterior is expected (`split_joint = model_cls.joint_posterior`) but
the (marginal-only) fallback is active, lift the variance vector to a
diagonal covariance matrix via `_var_to_covar`.  When the original family is
active its own flag equals `split_joint`, so no conversion happens; `famPost`
is the family's posterior primitive on its fitted state. -/
def SplitModel.rawPosterior {σ : Type}
    (famPost : σ → List (List ℚ) → List ℚ × RawCov) (split_joint : Bool)
    (s : SplitModelState σ) (candidates : List (List ℚ)) : List ℚ × RawCov :=
  match s with
  | .original st => famPost st candidates
  | .fallback m =>
      let mv := m.rawPosterior candidates
      if split_joint then (mv.1, .covariance (var_to_covar mv.2))
      else (mv.1, .variance mv.2)

/-! ### The surrogate facade -/

/-- Modelled from the spec: the real `SearchSpace` class is outside the
shown sources; the surrogate layer consumes only "a flag indicating whether
a continuous sub-space is non-empty" (`searchspace.continuous.is_empty`). -/
structure SearchSpace where
  continuous_is_empty : Bool
  deriving DecidableEq, Repr

/-- A surrogate model as seen by the facade methods of the abstract base
class: the class-level `joint_posterior` capability flag, the `type`
identifier (modelled from the spec for its value: the `type` attribute is
declared outside the shown sources and equals `"GP"` exactly for the
Gaussian-process family), and the two raw primitives `_fit` (returning the
fitted model state of type `σ`) and `_posterior` (evaluated on a fitted
state). -/
structure SurrogateModel (σ : Type) where
  joint_posterior : Bool
  type : String
  rawFit : SearchSpace → List (List ℚ) → QMatrix → σ
  rawPosterior : σ → List (List ℚ) → List ℚ × RawCov

/-- Embeds `SurrogateModel.fit`: first the continuous-search-space
compatibility check (before any validation of or numeric work on the
training data), then input and target preparation, then delegation to the
raw `_fit`. -/
def SurrogateModel.fit {σ : Type} (m : SurrogateModel σ)
    (searchspace : SearchSpace) (train_x : List (List ℚ)) (train_y : QMatrix) :
    Except SurrogateError σ :=
  if ¬searchspace.continuous_is_empty ∧ m.type ≠ "GP" then
    .error (.notImplementedError
      "Continuous search spaces are currently only supported by GPs.")
  else
    match prepare_inputs train_x with
    | .error e => .error e
    | .ok x =>
      match prepare_targets train_y with
      | .error e => .error e
      | .ok y => .ok (m.rawFit searchspace x y)

/-- Embeds `SurrogateModel.posterior`: validate/prepare the candidates,
evaluate the raw posterior, lift marginal variances to a diagonal covariance
matrix (`_var_to_covar`) when the model is marginal-only, then add the
`_MIN_VARIANCE` diagonal stability padding.  A raw result whose rank does
not match the capability flag would be a runtime failure of the in-place
broadcast `add_` in the source; every model in the file matches its flag. -/
def SurrogateModel.posterior {σ : Type} (m : SurrogateModel σ) (st : σ)
    (candidates : List (List ℚ)) :
    Except SurrogateError (List ℚ × List (List ℚ)) :=
  match prepare_inputs candidates with
  | .error e => .error e
  | .ok c =>
    let mr := m.rawPosterior st c
    match m.joint_posterior, mr.2 with
    | true, .covariance covar => .ok (mr.1, add_min_variance covar)
    | false, .variance v => .ok (mr.1, add_min_variance (var_to_covar v))
    | _, _ => .error (.valueError "posterior rank inconsistent with joint_posterior flag")

/-- Well-formedness of a raw `_posterior` result for `n` candidate points:
the mean has length `n`, the second component's rank matches the
`joint_posterior` flag, variances are of length `n` with nonnegative entries,
and covariance matrices are `n × n` with nonnegative diagonal.  Every
regressor family satisfies this: empirical tree variances, distributional
variances, squared standard deviations and the constant unit variance are
nonnegative, and a Gaussian-process covariance matrix is positive
semidefinite. -/
def rawCovWF (joint : Bool) (rc : RawCov) (n : Nat) : Prop :=
  match joint, rc with
  | false, .variance v => v.length = n ∧ ∀ x ∈ v, 0 ≤ x
  | true, .covariance c =>
      c.length = n ∧ (∀ r ∈ c, r.length = n) ∧ ∀ i, i < n → 0 ≤ entry c i i
  | _, _ => False

instance (joint : Bool) (rc : RawCov) (n : Nat) : Decidable (rawCovWF joint rc n) :=
  match joint, rc with
  | false, .variance v =>
      inferInstanceAs (Decidable (v.length = n ∧ ∀ x ∈ v, 0 ≤ x))
  | true, .covariance c =>
      inferInstanceAs (Decidable (c.length = n ∧ (∀ r ∈ c, r.length = n) ∧
        ∀ i, i < n → 0 ≤ entry c i i))
  | false, .covariance _ => inferInstanceAs (Decidable False)
  | true, .variance _ => inferInstanceAs (Decidable False)

/-- See `rawCovWF`: shapes and nonnegativity of a full raw posterior pair. -/
def RawPosteriorWF (joint : Bool) (p : List ℚ × RawCov) (n : Nat) : Prop :=
  p.1.length = n ∧ rawCovWF joint p.2 n

instance (joint : Bool) (p : List ℚ × RawCov) (n : Nat) :
    Decidable (RawPosteriorWF joint p n) :=
  inferInstanceAs (Decidable (_ ∧ _))

/-- The `MeanPredictionModel` family packaged behind the facade: marginal
capability flag, a non-`"GP"` `type` identifier, `_fit` storing the target
mean and `_posterior` returning the constant mean with unit variances. -/
def meanPredictionSurrogate : SurrogateModel MeanPredictionModel where
  joint_posterior := false
  type := "MEAN"
  rawFit := fun _ _ y => MeanPredictionModel.fitted y
  rawPosterior := fun st c => ((st.rawPosterior c).1, .variance (st.rawPosterior c).2)

/-! ### Chunking lemmas -/

theorem chunksAux_nil (q f : Nat) : chunksAux q f ([] : List α) = [] := by
  cases f <;> rfl

theorem chunksAux_congr (q : Nat) : ∀ (f₁ : Nat) (l : List α) (f₂ : Nat),
    l.length ≤ f₁ → l.length ≤ f₂ → chunksAux q f₁ l = chunksAux q f₂ l := by
  intro f₁
  induction f₁ with
  | zero =>
      intro l f₂ h₁ _
      have hl : l = [] := by
        cases l with
        | nil => rfl
        | cons a t => simp at h₁
      subst hl
      simp [chunksAux_nil]
  | succ f ih =>
      intro l f₂ h₁ h₂
      cases l with
      | nil => simp [chunksAux_nil]
      | cons a t =>
        cases f₂ with
        | zero => simp at h₂
        | succ f₂' =>
          by_cases hq : q = 0
          · simp [chunksAux, hq]
          · simp only [chunksAux, if_neg hq]
            congr 1
            have hd : ((a :: t).drop q).length = (a :: t).length - q :=
              List.length_drop q (a :: t)
            apply ih
            · simp only [hd, List.length_cons]
              simp only [List.length_cons] at h₁
              omega
            · simp only [hd, List.length_cons]
              simp only [List.length_cons] at h₂
              omega

theorem chunks_eq_cons (q : Nat) (hq : 0 < q) (l : List α) (hl : l ≠ []) :
    chunks q l = l.take q :: chunks q (l.drop q) := by
  cases l with
  | nil => exact absurd rfl hl
  | cons a t =>
    show chunksAux q (a :: t).length (a :: t) = _
    simp only [List.length_cons, chunksAux, if_neg (Nat.pos_iff_ne_zero.mp hq)]
    congr 1
    apply chunksAux_congr
    · simp only [List.length_drop, List.length_cons]
      omega
    · exact Nat.le_refl _

theorem chunks_join (q : Nat) (hq : 0 < q) :
    ∀ ls : List (List α), (∀ x ∈ ls, x.length = q) → chunks q ls.flatten = ls := by
  intro ls
  induction ls with
  | nil => intro _; rfl
  | cons x ls ih =>
    intro h
    have hx : x.length = q := h x (List.mem_cons_self _ _)
    have hrest : ∀ y ∈ ls, y.length = q := fun y hy => h y (List.mem_cons_of_mem _ hy)
    have hflat : (x :: ls).flatten = x ++ ls.flatten := by simp
    rw [hflat]
    have hne : x ++ ls.flatten ≠ [] := by
      have hxpos : 0 < x.length := hx ▸ hq
      cases x with
      | nil => simp at hxpos
      | cons a t => simp
    rw [chunks_eq_cons q hq _ hne]
    have ht : (x ++ ls.flatten).take q = x := by
      rw [← hx]
      exact List.take_left _ _
    have hd : (x ++ ls.flatten).drop q = ls.flatten := by
      rw [← hx]
      exact List.drop_left _ _
    rw [ht, hd, ih hrest]

theorem chunks_shape (q : Nat) (hq : 0 < q) :
    ∀ (T : Nat) (l : List α), l.length = T * q →
      (chunks q l).length = T ∧ ∀ c ∈ chunks q l, c.length = q := by
  intro T
  induction T with
  | zero =>
      intro l hl
      have : l = [] := List.length_eq_zero.mp (by simpa using hl)
      subst this
      exact ⟨rfl, by intro c hc; simp [chunks, chunksAux_nil] at hc⟩
  | succ T ih =>
      intro l hl
      have hlen : l.length = T * q + q := by rw [hl]; ring
      have hne : l ≠ [] := by
        intro h
        subst h
        simp at hlen
        omega
      rw [chunks_eq_cons q hq l hne]
      have htake : (l.take q).length = q := by
        rw [List.length_take]
        omega
      have hdrop : (l.drop q).length = T * q := by
        rw [List.length_drop]
        omega
      obtain ⟨h1, h2⟩ := ih (l.drop q) hdrop
      refine ⟨by simp [h1], ?_⟩
      intro c hc
      rcases List.mem_cons.mp hc with h | h
      · subst h; exact htake
      · exact h2 c h

/-! ### Indexing lemmas -/

theorem getD_of_lt (l : List α) (i : Nat) (d : α) (h : i < l.length) :
    l.getD i d = l[i] := by
  rw [List.getD_eq_getElem?_getD, List.getElem?_eq_getElem h]
  rfl

theorem getD_of_le (l : List α) (i : Nat) (d : α) (h : l.length ≤ i) :
    l.getD i d = d := by
  rw [List.getD_eq_getElem?_getD, List.getElem?_eq_none_iff.mpr h]
  rfl

theorem getD_mem (l : List ℚ) (i : Nat) (d : ℚ) (h : i < l.length) :
    l.getD i d ∈ l := by
  rw [getD_of_lt _ _ _ h]
  exact List.getElem_mem h

theorem entry_range_grid (n : Nat) (g : Nat → Nat → ℚ) (i j : Nat) :
    entry ((List.range n).map fun a => (List.range n).map fun b => g a b) i j =
      if i < n ∧ j < n then g i j else 0 := by
  by_cases hi : i < n
  · have hlen : i < ((List.range n).map fun a =>
        (List.range n).map fun b => g a b).length := by simpa using hi
    unfold entry
    rw [getD_of_lt _ _ _ hlen]
    simp only [List.getElem_map, List.getElem_range]
    by_cases hj : j < n
    · have hjlen : j < ((List.range n).map fun b => g i b).length := by simpa using hj
      rw [getD_of_lt _ _ _ hjlen]
      simp [hi, hj]
    · rw [getD_of_le _ _ _ (by simpa using Nat.le_of_not_lt hj)]
      simp [hj]
  · unfold entry
    rw [getD_of_le ((List.range n).map fun a => (List.range n).map fun b => g a b)
      i [] (by simpa using Nat.le_of_not_lt hi)]
    simp [hi]

theorem entry_var_to_covar (v : List ℚ) (i j : Nat) :
    entry (var_to_covar v) i j =
      if i = j ∧ i < v.length then v.getD i 0 else 0 := by
  unfold var_to_covar
  rw [entry_range_grid]
  by_cases hij : i = j
  · subst hij
    by_cases hi : i < v.length <;> simp [hi]
  · simp only [hij, false_and, if_false]
    by_cases h : i < v.length ∧ j < v.length <;> simp [h, hij]

theorem var_to_covar_shape (v : List ℚ) :
    (var_to_covar v).length = v.length ∧
      ∀ r ∈ var_to_covar v, r.length = v.length := by
  refine ⟨by simp [var_to_covar], ?_⟩
  intro r hr
  obtain ⟨i, _, rfl⟩ := List.mem_map.mp hr
  simp

theorem matScale_eye_grid (c : ℚ) (n : Nat) :
    matScale c (eye n) =
      (List.range n).map fun a =>
        (List.range n).map fun b => c * if a = b then 1 else 0 := by
  simp [matScale, eye, List.map_map, Function.comp_def]

theorem entry_matAdd_sq (a b : List (List ℚ)) (n : Nat)
    (ha : a.length = n) (hb : b.length = n)
    (har : ∀ r ∈ a, r.length = n) (hbr : ∀ r ∈ b, r.length = n) (i j : Nat) :
    entry (matAdd a b) i j = entry a i j + entry b i j := by
  by_cases hi : i < n
  · have hia : i < a.length := ha ▸ hi
    have hib : i < b.length := hb ▸ hi
    have hlen : i < (matAdd a b).length := by
      simp only [matAdd, List.length_zipWith]
      omega
    have hrowa : (a[i]).length = n := har _ (List.getElem_mem hia)
    have hrowb : (b[i]).length = n := hbr _ (List.getElem_mem hib)
    have hrow : (matAdd a b)[i] = List.zipWith (· + ·) (a[i]) (b[i]) := by
      simp [matAdd, List.getElem_zipWith]
    unfold entry
    rw [getD_of_lt _ _ _ hlen, getD_of_lt _ _ _ hia, getD_of_lt _ _ _ hib, hrow]
    by_cases hj : j < n
    · have hja : j < (a[i]).length := by omega
      have hjb : j < (b[i]).length := by omega
      have hjz : j < (List.zipWith (· + ·) (a[i]) (b[i])).length := by
        simp only [List.length_zipWith]
        omega
      rw [getD_of_lt _ _ _ hjz, getD_of_lt _ _ _ hja, getD_of_lt _ _ _ hjb]
      rw [List.getElem_zipWith]
    · have hja : (a[i]).length ≤ j := by omega
      have hjb : (b[i]).length ≤ j := by omega
      have hjz : (List.zipWith (· + ·) (a[i]) (b[i])).length ≤ j := by
        simp only [List.length_zipWith]
        omega
      rw [getD_of_le _ _ _ hjz, getD_of_le _ _ _ hja, getD_of_le _ _ _ hjb]
      norm_num
  · have hz : (matAdd a b).length ≤ i := by
      simp only [matAdd, List.length_zipWith]
      omega
    have hza : a.length ≤ i := by omega
    have hzb : b.length ≤ i := by omega
    unfold entry
    rw [getD_of_le _ _ _ hz, getD_of_le _ _ _ hza, getD_of_le _ _ _ hzb]
    simp

theorem MIN_VARIANCE_pos : 0 < MIN_VARIANCE := by
  norm_num [MIN_VARIANCE]

theorem shapeLast_sq (covar : List (List ℚ)) (n : Nat)
    (hlen : covar.length = n) (hrows : ∀ r ∈ covar, r.length = n) :
    shapeLast covar = n := by
  cases covar with
  | nil => simpa [shapeLast] using hlen
  | cons r t =>
    have := hrows r (List.mem_cons_self _ _)
    simpa [shapeLast] using this

theorem matScale_eye_shape (c : ℚ) (n : Nat) :
    (matScale c (eye n)).length = n ∧ ∀ r ∈ matScale c (eye n), r.length = n := by
  rw [matScale_eye_grid]
  refine ⟨by simp, ?_⟩
  intro r hr
  obtain ⟨i, _, rfl⟩ := List.mem_map.mp hr
  simp

theorem entry_matScale_eye (c : ℚ) (n i j : Nat) :
    entry (matScale c (eye n)) i j = if i = j ∧ i < n then c else 0 := by
  rw [matScale_eye_grid, entry_range_grid]
  by_cases hij : i = j
  · subst hij
    by_cases hi : i < n <;> simp [hi]
  · by_cases h : i < n ∧ j < n <;> simp [h, hij]

theorem add_min_variance_spec (covar : List (List ℚ)) (n : Nat)
    (hlen : covar.length = n) (hrows : ∀ r ∈ covar, r.length = n) :
    (add_min_variance covar).length = n ∧
    (∀ r ∈ add_min_variance covar, r.length = n) ∧
    ∀ i j, entry (add_min_variance covar) i j =
      entry covar i j + (if i = j ∧ i < n then MIN_VARIANCE else 0) := by
  have hsl : shapeLast covar = n := shapeLast_sq covar n hlen hrows
  have hms := matScale_eye_shape MIN_VARIANCE n
  unfold add_min_variance
  rw [hsl]
  refine ⟨?_, ?_, ?_⟩
  · simp only [matAdd, List.length_zipWith, hlen, hms.1]
    omega
  · intro r hr
    rw [List.mem_iff_getElem] at hr
    obtain ⟨k, hk, rfl⟩ := hr
    have hka : k < covar.length := by
      simp only [matAdd, List.length_zipWith] at hk
      omega
    have hkb : k < (matScale MIN_VARIANCE (eye n)).length := by
      simp only [matAdd, List.length_zipWith] at hk
      omega
    have hrow : (matAdd covar (matScale MIN_VARIANCE (eye n)))[k] =
        List.zipWith (· + ·) (covar[k]) ((matScale MIN_VARIANCE (eye n))[k]) := by
      simp [matAdd, List.getElem_zipWith]
    rw [hrow, List.length_zipWith]
    have h1 := hrows _ (List.getElem_mem hka)
    have h2 := hms.2 _ (List.getElem_mem hkb)
    omega
  · intro i j
    rw [entry_matAdd_sq covar _ n hlen hms.1 hrows hms.2, entry_matScale_eye]

theorem fit_ok {σ : Type} (m : SurrogateModel σ) (space : SearchSpace)
    (X : List (List ℚ)) (Y : QMatrix)
    (hX : X.length ≠ 0) (hY : Y.ncols = 1)
    (hcfg : space.continuous_is_empty = true ∨ m.type = "GP") :
    m.fit space X Y = .ok (m.rawFit space X Y) := by
  have hcond : ¬(¬space.continuous_is_empty ∧ m.type ≠ "GP") := by
    rcases hcfg with h | h <;> simp [h]
  unfold SurrogateModel.fit
  rw [if_neg hcond]
  simp [prepare_inputs, prepare_targets, hX, hY, Except.bind]

theorem posterior_marginal_eq {σ : Type} (m : SurrogateModel σ) (st : σ)
    (C : List (List ℚ)) (hC : C.length ≠ 0) (hflag : m.joint_posterior = false)
    (v : List ℚ) (hv : (m.rawPosterior st C).2 = .variance v) :
    m.posterior st C =
      .ok ((m.rawPosterior st C).1, add_min_variance (var_to_covar v)) := by
  unfold SurrogateModel.posterior
  simp [prepare_inputs, hC, hflag, hv, Except.bind]

theorem posterior_joint_eq {σ : Type} (m : SurrogateModel σ) (st : σ)
    (C : List (List ℚ)) (hC : C.length ≠ 0) (hflag : m.joint_posterior = true)
    (c : List (List ℚ)) (hc : (m.rawPosterior st C).2 = .covariance c) :
    m.posterior st C = .ok ((m.rawPosterior st C).1, add_min_variance c) := by
  unfold SurrogateModel.posterior
  simp [prepare_inputs, hC, hflag, hc, Except.bind]

/-! ### Claim theorems -/

/-- C1: for every surrogate, non-empty training set `(X, Y)` with exactly
one target column and a configuration accepted at fit time, `fit` succeeds
and the subsequent `posterior(X)` returns a mean vector of length `len(X)`
and a `len(X) × len(X)` covariance matrix whose every diagonal entry is at
least `1e-6` and strictly positive — under the well-formedness of the fitted
regressor's raw posterior (shapes match the candidate count, raw
(co)variance diagonals nonnegative), which every family guarantees. -/
theorem posterior_shape_and_variance_floor {σ : Type}
    (m : SurrogateModel σ) (space : SearchSpace) (X : List (List ℚ)) (Y : QMatrix)
    (n : Nat) (hn : X.length = n) (hpos : 0 < n) (hY : Y.ncols = 1)
    (hcfg : space.continuous_is_empty = true ∨ m.type = "GP")
    (hraw : RawPosteriorWF m.joint_posterior
      (m.rawPosterior (m.rawFit space X Y) X) n) :
    ∃ st, m.fit space X Y = .ok st ∧
      ∃ mean covar, m.posterior st X = .ok (mean, covar) ∧
        mean.length = n ∧ covar.length = n ∧ (∀ r ∈ covar, r.length = n) ∧
        ∀ i, i < n → MIN_VARIANCE ≤ entry covar i i ∧ 0 < entry covar i i := by
  have hX0 : X.length ≠ 0 := by omega
  refine ⟨m.rawFit space X Y, fit_ok m space X Y hX0 hY hcfg, ?_⟩
  obtain ⟨hmean, hcov⟩ := hraw
  cases hflag : m.joint_posterior with
  | false =>
    cases hp2 : (m.rawPosterior (m.rawFit space X Y) X).2 with
    | covariance c =>
        rw [hflag, hp2] at hcov
        simp [rawCovWF] at hcov
    | variance v =>
        rw [hflag, hp2] at hcov
        simp only [rawCovWF] at hcov
        obtain ⟨hv1, hv2⟩ := hcov
        have hpost := posterior_marginal_eq m _ X hX0 hflag v hp2
        have hvshape := var_to_covar_shape v
        have hvlen : (var_to_covar v).length = n := by rw [hvshape.1, hv1]
        have hvrows : ∀ r ∈ var_to_covar v, r.length = n := by
          intro r hr
          rw [hvshape.2 r hr, hv1]
        have hspec := add_min_variance_spec (var_to_covar v) n hvlen hvrows
        refine ⟨_, _, hpost, hmean, hspec.1, hspec.2.1, ?_⟩
        intro i hi
        have he := hspec.2.2 i i
        have hiv : i < v.length := by omega
        rw [entry_var_to_covar, if_pos ⟨rfl, hiv⟩, if_pos ⟨rfl, hi⟩] at he
        have h0 : 0 ≤ v.getD i 0 := hv2 _ (getD_mem v i 0 hiv)
        have hm := MIN_VARIANCE_pos
        constructor
        · rw [he]
          linarith
        · rw [he]
          linarith
  | true =>
    cases hp2 : (m.rawPosterior (m.rawFit space X Y) X).2 with
    | variance v =>
        rw [hflag, hp2] at hcov
        simp [rawCovWF] at hcov
    | covariance c =>
        rw [hflag, hp2] at hcov
        simp only [rawCovWF] at hcov
        obtain ⟨hc1, hc2, hc3⟩ := hcov
        have hpost := posterior_joint_eq m _ X hX0 hflag c hp2
        have hspec := add_min_variance_spec c n hc1 hc2
        refine ⟨_, _, hpost, hmean, hspec.1, hspec.2.1, ?_⟩
        intro i hi
        have he := hspec.2.2 i i
        rw [if_pos ⟨rfl, hi⟩] at he
        have h0 : 0 ≤ entry c i i := hc3 i hi
        have hm := MIN_VARIANCE_pos
        constructor
        · rw [he]
          linarith
        · rw [he]
          linarith

/-- C1 witness: the mean-prediction family, fit on `X = [[0]]`,
`Y = [[5]]`, posterior at `X` itself. -/
theorem posterior_shape_and_variance_floor_witness :
    (RawPosteriorWF meanPredictionSurrogate.joint_posterior
      (meanPredictionSurrogate.rawPosterior
        (meanPredictionSurrogate.rawFit ⟨true⟩ [[0]] ⟨[[5]], 1⟩) [[0]]) 1) ∧
    ∃ st, meanPredictionSurrogate.fit ⟨true⟩ [[0]] ⟨[[5]], 1⟩ = .ok st ∧
      ∃ mean covar, meanPredictionSurrogate.posterior st [[0]] = .ok (mean, covar) ∧
        mean.length = 1 ∧ covar.length = 1 ∧ (∀ r ∈ covar, r.length = 1) ∧
        ∀ i, i < 1 → MIN_VARIANCE ≤ entry covar i i ∧ 0 < entry covar i i :=
  ⟨by decide,
   posterior_shape_and_variance_floor meanPredictionSurrogate ⟨true⟩ [[0]] ⟨[[5]], 1⟩
     1 rfl (by decide) rfl (Or.inl rfl) (by decide)⟩

/-- C4: for a marginal-only model, the covariance returned by the facade's
posterior is the diagonally embedded variance vector plus the stability
floor; every off-diagonal entry is zero both before and after the floor is
added. -/
theorem marginal_covariance_diagonal {σ : Type}
    (m : SurrogateModel σ) (st : σ) (C : List (List ℚ)) (hC : C.length ≠ 0)
    (hflag : m.joint_posterior = false)
    (v : List ℚ) (hv : (m.rawPosterior st C).2 = .variance v) :
    m.posterior st C =
      .ok ((m.rawPosterior st C).1, add_min_variance (var_to_covar v)) ∧
    (∀ i j, i ≠ j → entry (var_to_covar v) i j = 0) ∧
    (∀ i j, i ≠ j → entry (add_min_variance (var_to_covar v)) i j = 0) := by
  refine ⟨posterior_marginal_eq m st C hC hflag v hv, ?_, ?_⟩
  · intro i j hij
    rw [entry_var_to_covar]
    simp [hij]
  · intro i j hij
    have hvs := var_to_covar_shape v
    have hspec := add_min_variance_spec (var_to_covar v) v.length hvs.1 hvs.2
    rw [hspec.2.2 i j, entry_var_to_covar]
    simp [hij]

/-- C4 witness: the mean-prediction family (marginal) on two candidates. -/
theorem marginal_covariance_diagonal_witness :
    (([[(0:ℚ)], [1]] : List (List ℚ)).length ≠ 0) ∧
    (meanPredictionSurrogate.rawPosterior ⟨7⟩ [[0], [1]]).2 =
      .variance [1, 1] ∧
    (meanPredictionSurrogate.posterior ⟨7⟩ [[0], [1]] =
      .ok ((meanPredictionSurrogate.rawPosterior ⟨7⟩ [[0], [1]]).1,
        add_min_variance (var_to_covar [1, 1])) ∧
    (∀ i j, i ≠ j → entry (var_to_covar [1, 1]) i j = 0) ∧
    (∀ i j, i ≠ j → entry (add_min_variance (var_to_covar [1, 1])) i j = 0)) :=
  ⟨by decide, by decide,
   marginal_covariance_diagonal meanPredictionSurrogate ⟨7⟩ [[0], [1]]
     (by decide) rfl [1, 1] (by decide)⟩

/-- C6: for a surrogate whose family is not the Gaussian-process family and a
search space with a non-empty continuous component, `fit` fails with the
unsupported-configuration error for *all* training inputs — including empty
or malformed ones — because the check precedes any validation of or numeric
work on the training data. -/
theorem continuous_space_non_gp_fit_fails {σ : Type}
    (m : SurrogateModel σ) (space : SearchSpace)
    (hgp : m.type ≠ "GP") (hcont : space.continuous_is_empty = false)
    (X : List (List ℚ)) (Y : QMatrix) :
    m.fit space X Y = .error (.notImplementedError
      "Continuous search spaces are currently only supported by GPs.") := by
  unfold SurrogateModel.fit
  rw [if_pos]
  exact ⟨by simp [hcont], hgp⟩

/-- C6 witness: the mean-prediction family on a continuous search space,
called with an empty feature tensor and a malformed target tensor — the
configuration error still wins. -/
theorem continuous_space_non_gp_fit_fails_witness :
    (meanPredictionSurrogate.type ≠ "GP") ∧
    meanPredictionSurrogate.fit ⟨false⟩ [] ⟨[], 0⟩ =
      .error (.notImplementedError
        "Continuous search spaces are currently only supported by GPs.") :=
  ⟨by decide,
   continuous_space_non_gp_fit_fails meanPredictionSurrogate ⟨false⟩
     (by decide) rfl [] ⟨[], 0⟩⟩

/-- C8 (amended): `fit` with a zero-row feature tensor and `posterior` with
a zero-row candidate tensor both fail with the input-validation error (and
never silently return an empty result); a zero-row *target* tensor alone is
not rejected — see the counterexample. -/
theorem empty_inputs_rejected {σ : Type}
    (m : SurrogateModel σ) (space : SearchSpace) (st : σ)
    (hcfg : space.continuous_is_empty = true ∨ m.type = "GP")
    (X C : List (List ℚ)) (Y : QMatrix) (hX : X.length = 0) (hC : C.length = 0) :
    m.fit space X Y = .error (.valueError "The model input must be non-empty.") ∧
    m.posterior st C =
      .error (.valueError "The model input must be non-empty.") := by
  have hcond : ¬(¬space.continuous_is_empty ∧ m.type ≠ "GP") := by
    rcases hcfg with h | h <;> simp [h]
  constructor
  · unfold SurrogateModel.fit
    rw [if_neg hcond]
    simp [prepare_inputs, hX]
  · unfold SurrogateModel.posterior
    simp [prepare_inputs, hC]

/-- C8 witness: concrete empty-input calls on the mean-prediction family. -/
theorem empty_inputs_rejected_witness :
    (([] : List (List ℚ)).length = 0) ∧
    (meanPredictionSurrogate.fit ⟨true⟩ [] ⟨[[1]], 1⟩ =
        .error (.valueError "The model input must be non-empty.") ∧
      meanPredictionSurrogate.posterior ⟨3⟩ [] =
        .error (.valueError "The model input must be non-empty.")) :=
  ⟨rfl,
   empty_inputs_rejected meanPredictionSurrogate ⟨true⟩ ⟨3⟩ (Or.inl rfl)
     [] [] ⟨[[1]], 1⟩ rfl rfl⟩

/-- C8 counterexample: `fit` with a zero-row target tensor of shape `(0, 1)`
and a non-empty feature tensor does *not* fail with an input-validation
error: target validation checks only the column count, so the call reaches
the raw fit and returns its result.  (For this family torch would store a
`NaN` target mean — the exact embedding renders the `0/0` as `0` — but no
validation error is raised either way.) -/
theorem zero_row_targets_not_rejected :
    meanPredictionSurrogate.fit ⟨true⟩ [[0]] ⟨[], 1⟩ =
      .ok (MeanPredictionModel.fitted ⟨[], 1⟩) := by
  rfl

/-- C7: for any non-GP family, a `model_params` key absent from the wrapped
fitting routine's `co_varnames` makes construction fail with an error whose
message is built from exactly the list of offending keys (containing the
key); and the GP family rejects *any* non-empty `model_params`. -/
theorem invalid_model_params_rejected
    (model : String) (varnames params : List String) (key : String)
    (hgp : strContainsSub model "GaussianProcess" = false)
    (hmem : key ∈ params) (hnot : key ∉ varnames) :
    (validate_model_params model varnames params =
        .error (.valueError (invalidParamsMsg model
          (params.filter fun k => k ∉ varnames))) ∧
      key ∈ params.filter fun k => k ∉ varnames) ∧
    ∀ (varnames2 params2 : List String), params2 ≠ [] →
      validate_model_params "GaussianProcessModel" varnames2 params2 =
        .error (.valueError
          "GaussianProcessModel does not support model params.") := by
  constructor
  · have hcond : ¬(strContainsSub model "GaussianProcess" ∧ params ≠ []) := by
      simp [hgp]
    have hkmem : key ∈ params.filter fun k => k ∉ varnames :=
      List.mem_filter.mpr ⟨hmem, by simpa using hnot⟩
    have hne : (params.filter fun k => k ∉ varnames) ≠ [] := by
      intro h
      rw [h] at hkmem
      simp at hkmem
    refine ⟨?_, hkmem⟩
    unfold validate_model_params
    rw [if_neg hcond, if_pos hne]
  · intro varnames2 params2 hne2
    unfold validate_model_params
    rw [if_pos ⟨by decide, hne2⟩]
    have hs : ("GaussianProcessModel" ++ " does not support model params." : String) =
        "GaussianProcessModel does not support model params." := by decide
    rw [hs]

/-- C7 witness: a random-forest surrogate given `not_a_real_param` (with the
`co_varnames` of `RandomForestRegressor.__init__`), and a GP given a
non-empty parameter mapping. -/
theorem invalid_model_params_rejected_witness :
    (strContainsSub "RandomForestModel" "GaussianProcess" = false) ∧
    ("not_a_real_param" ∈ ["not_a_real_param"]) ∧
    ((validate_model_params "RandomForestModel"
        ["self", "n_estimators", "criterion", "max_depth", "min_samples_split",
         "min_samples_leaf", "min_weight_fraction_leaf", "max_features",
         "max_leaf_nodes", "min_impurity_decrease", "bootstrap", "oob_score",
         "n_jobs", "random_state", "verbose", "warm_start", "ccp_alpha",
         "max_samples"] ["not_a_real_param"] =
        .error (.valueError (invalidParamsMsg "RandomForestModel"
          (["not_a_real_param"].filter fun k =>
            k ∉ ["self", "n_estimators", "criterion", "max_depth",
              "min_samples_split", "min_samples_leaf",
              "min_weight_fraction_leaf", "max_features", "max_leaf_nodes",
              "min_impurity_decrease", "bootstrap", "oob_score", "n_jobs",
              "random_state", "verbose", "warm_start", "ccp_alpha",
              "max_samples"]))) ∧
      "not_a_real_param" ∈ ["not_a_real_param"].filter fun k =>
        k ∉ ["self", "n_estimators", "criterion", "max_depth",
          "min_samples_split", "min_samples_leaf", "min_weight_fraction_leaf",
          "max_features", "max_leaf_nodes", "min_impurity_decrease",
          "bootstrap", "oob_score", "n_jobs", "random_state", "verbose",
          "warm_start", "ccp_alpha", "max_samples"]) ∧
    ∀ (varnames2 params2 : List String), params2 ≠ [] →
      validate_model_params "GaussianProcessModel" varnames2 params2 =
        .error (.valueError
          "GaussianProcessModel does not support model params.")) :=
  ⟨by decide, by decide,
   invalid_model_params_rejected "RandomForestModel" _ _ "not_a_real_param"
     (by decide) (by decide) (by decide)⟩

theorem flatten_map_flatten (L : List (List (List α))) :
    (L.map List.flatten).flatten = L.flatten.flatten := by
  induction L with
  | nil => rfl
  | cons x t ih => simp [ih]

theorem getD_map_of_lt (f : α → β) (l : List α) (t : Nat) (h : t < l.length)
    (d : β) (d' : α) : (l.map f).getD t d = f (l.getD t d') := by
  rw [getD_of_lt _ _ _ (by simpa using h), getD_of_lt _ _ _ h, List.getElem_map]

/-- C3: joint-covariance batching: for a well-formed `(T, Q, D)` candidate
batch and a raw posterior producing `(Q,)`-means and `(Q, Q)`-covariances per
slice, the sequentialized result agrees slice-by-slice with invoking the raw
posterior directly on each `(Q, D)` slice (in particular for `T ∈ {1, 3}`,
`Q ∈ {1, 5}`, covered by the universally quantified statement). -/
theorem sequential_posterior_joint_per_slice
    (post : List (List ℚ) → List ℚ × List (List ℚ))
    (cands : List (List (List ℚ))) (q : Nat) (hq : 0 < q)
    (hne : cands ≠ [])
    (hwf : ∀ b ∈ cands, b.length = q)
    (hpost : ∀ b ∈ cands, (post b).1.length = q ∧
      (post b).2.length = q ∧ ∀ r ∈ (post b).2, r.length = q) :
    ∀ t (ht : t < cands.length),
      (sequential_posterior_joint post cands).1.getD t [] =
        (post (cands[t])).1 ∧
      (sequential_posterior_joint post cands).2.getD t [] =
        (post (cands[t])).2 := by
  have hhead : (cands.headD []).length = q := by
    cases cands with
    | nil => exact absurd rfl hne
    | cons b t => exact hwf b (List.mem_cons_self _ _)
  have hmean : (sequential_posterior_joint post cands).1 =
      cands.map fun b => (post b).1 := by
    show chunks ((cands.headD []).length)
      ((cands.map post).map Prod.fst).flatten = _
    rw [hhead, List.map_map]
    exact chunks_join q hq _ fun x hx => by
      obtain ⟨b, hb, rfl⟩ := List.mem_map.mp hx
      exact (hpost b hb).1
  have hcov : (sequential_posterior_joint post cands).2 =
      cands.map fun b => (post b).2 := by
    show chunks ((cands.headD []).length) (chunks ((cands.headD []).length)
      ((cands.map post).map (fun p => p.2.flatten)).flatten) = _
    rw [hhead, List.map_map]
    have h1 : (cands.map fun b => ((post b).2).flatten) =
        (cands.map fun b => (post b).2).map List.flatten := by
      rw [List.map_map]
      rfl
    simp only [Function.comp_def]
    rw [h1, flatten_map_flatten]
    have hinner : chunks q ((cands.map fun b => (post b).2).flatten).flatten =
        (cands.map fun b => (post b).2).flatten := by
      apply chunks_join q hq
      intro x hx
      rw [List.mem_flatten] at hx
      obtain ⟨c, hc, hxc⟩ := hx
      obtain ⟨b, hb, rfl⟩ := List.mem_map.mp hc
      exact (hpost b hb).2.2 x hxc
    rw [hinner]
    apply chunks_join q hq
    intro x hx
    obtain ⟨b, hb, rfl⟩ := List.mem_map.mp hx
    exact (hpost b hb).2.1
  intro t ht
  constructor
  · rw [hmean, getD_map_of_lt _ _ _ ht _ [], getD_of_lt _ _ _ ht]
  · rw [hcov, getD_map_of_lt _ _ _ ht _ [], getD_of_lt _ _ _ ht]

/-- C3 witness: `T = 3`, `Q = 5`, with a joint raw posterior returning zero
means and identity covariances. -/
theorem sequential_posterior_joint_per_slice_witness :
    (0 < 5) ∧
    (∀ b ∈ List.replicate 3 (List.replicate 5 [(0:ℚ)]),
      ((fun (m : List (List ℚ)) =>
        (List.replicate m.length (0:ℚ), eye m.length)) b).1.length = 5 ∧
      ((fun (m : List (List ℚ)) =>
        (List.replicate m.length (0:ℚ), eye m.length)) b).2.length = 5 ∧
      ∀ r ∈ ((fun (m : List (List ℚ)) =>
        (List.replicate m.length (0:ℚ), eye m.length)) b).2, r.length = 5) ∧
    ∀ t (ht : t < (List.replicate 3 (List.replicate 5 [(0:ℚ)])).length),
      (sequential_posterior_joint
          (fun m => (List.replicate m.length 0, eye m.length))
          (List.replicate 3 (List.replicate 5 [0]))).1.getD t [] =
        ((fun (m : List (List ℚ)) =>
          (List.replicate m.length (0:ℚ), eye m.length))
            ((List.replicate 3 (List.replicate 5 [(0:ℚ)]))[t])).1 ∧
      (sequential_posterior_joint
          (fun m => (List.replicate m.length 0, eye m.length))
          (List.replicate 3 (List.replicate 5 [0]))).2.getD t [] =
        ((fun (m : List (List ℚ)) =>
          (List.replicate m.length (0:ℚ), eye m.length))
            ((List.replicate 3 (List.replicate 5 [(0:ℚ)]))[t])).2 :=
  ⟨by decide, by decide,
   sequential_posterior_joint_per_slice
     (fun m => (List.replicate m.length 0, eye m.length))
     (List.replicate 3 (List.replicate 5 [0])) 5 (by decide) (by decide)
     (by decide) (by decide)⟩

/-- C5: marginal batching: the sequentializer evaluates the raw posterior on
the fully flattened `(T·Q, D)` input in a single call and reshapes the
resulting mean and variance vectors to `(T, Q)`. -/
theorem sequential_posterior_marginal_reshape
    (post : List (List ℚ) → List ℚ × List ℚ)
    (cands : List (List (List ℚ))) (T q : Nat) (hq : 0 < q)
    (hne : cands ≠ []) (hT : cands.length = T)
    (hwf : ∀ b ∈ cands, b.length = q)
    (hlen1 : (post cands.flatten).1.length = cands.flatten.length)
    (hlen2 : (post cands.flatten).2.length = cands.flatten.length) :
    sequential_posterior_marginal post cands =
      (chunks q (post cands.flatten).1, chunks q (post cands.flatten).2) ∧
    (sequential_posterior_marginal post cands).1.length = T ∧
    (∀ v ∈ (sequential_posterior_marginal post cands).1, v.length = q) ∧
    (sequential_posterior_marginal post cands).2.length = T ∧
    (∀ v ∈ (sequential_posterior_marginal post cands).2, v.length = q) := by
  have hhead : (cands.headD []).length = q := by
    cases cands with
    | nil => exact absurd rfl hne
    | cons b t => exact hwf b (List.mem_cons_self _ _)
  have heq : sequential_posterior_marginal post cands =
      (chunks q (post cands.flatten).1, chunks q (post cands.flatten).2) := by
    show (chunks ((cands.headD []).length) _,
      chunks ((cands.headD []).length) _) = _
    rw [hhead]
  have hflatlen : cands.flatten.length = T * q := by
    rw [List.length_flatten]
    have hrep : cands.map List.length = List.replicate T q := by
      rw [List.eq_replicate_iff]
      refine ⟨by simpa using hT, ?_⟩
      intro b hb
      obtain ⟨x, hx, rfl⟩ := List.mem_map.mp hb
      exact hwf x hx
    rw [hrep, List.sum_replicate, smul_eq_mul]
  obtain ⟨hl1, hm1⟩ := chunks_shape q hq T (post cands.flatten).1
    (by rw [hlen1, hflatlen])
  obtain ⟨hl2, hm2⟩ := chunks_shape q hq T (post cands.flatten).2
    (by rw [hlen2, hflatlen])
  rw [heq]
  exact ⟨rfl, hl1, hm1, hl2, hm2⟩

/-- C5 witness: `T = 4`, `Q = 6` with the mean-prediction family's raw
posterior (whose outputs have the input's length). -/
theorem sequential_posterior_marginal_reshape_witness :
    (0 < 6) ∧
    (MeanPredictionModel.rawPosterior ⟨7⟩
      (List.replicate 4 (List.replicate 6 [(0:ℚ)])).flatten).1.length =
      (List.replicate 4 (List.replicate 6 [(0:ℚ)])).flatten.length ∧
    (sequential_posterior_marginal (MeanPredictionModel.rawPosterior ⟨7⟩)
        (List.replicate 4 (List.replicate 6 [(0:ℚ)]))).1.length = 4 ∧
    (∀ v ∈ (sequential_posterior_marginal (MeanPredictionModel.rawPosterior ⟨7⟩)
        (List.replicate 4 (List.replicate 6 [(0:ℚ)]))).1, v.length = 6) ∧
    (sequential_posterior_marginal (MeanPredictionModel.rawPosterior ⟨7⟩)
        (List.replicate 4 (List.replicate 6 [(0:ℚ)]))).2.length = 4 ∧
    (∀ v ∈ (sequential_posterior_marginal (MeanPredictionModel.rawPosterior ⟨7⟩)
        (List.replicate 4 (List.replicate 6 [(0:ℚ)]))).2, v.length = 6) := by
  have h := sequential_posterior_marginal_reshape
    (MeanPredictionModel.rawPosterior ⟨7⟩)
    (List.replicate 4 (List.replicate 6 [(0:ℚ)])) 4 6 (by decide) (by decide)
    (by decide) (by decide) (by decide) (by decide)
  exact ⟨by decide, by decide, h.2.1, h.2.2.1, h.2.2.2.1, h.2.2.2.2⟩

theorem sum_of_constant (l : List ℚ) (c : ℚ) (h : ∀ x ∈ l, x = c) :
    l.sum = l.length * c := by
  induction l with
  | nil => simp
  | cons a t ih =>
    have ha : a = c := h a (List.mem_cons_self _ _)
    have ht : ∀ x ∈ t, x = c := fun x hx => h x (List.mem_cons_of_mem _ hx)
    rw [List.sum_cons, ha, ih ht, List.length_cons]
    push_cast
    ring

theorem mean_of_constant (l : List ℚ) (c : ℚ) (hne : l ≠ []) (h : ∀ x ∈ l, x = c) :
    l.sum / (l.length : ℚ) = c := by
  rw [sum_of_constant l c h]
  have hlen : l.length ≠ 0 := fun h0 => hne (List.length_eq_zero.mp h0)
  have : (l.length : ℚ) ≠ 0 := Nat.cast_ne_zero.mpr hlen
  field_simp

theorem popVariance_of_constant (l : List ℚ) (c : ℚ) (hne : l ≠ [])
    (h : ∀ x ∈ l, x = c) : popVariance l = 0 := by
  unfold popVariance
  rw [mean_of_constant l c hne h]
  have hz : ∀ y ∈ l.map fun x => (x - c) ^ 2, y = 0 := by
    intro y hy
    obtain ⟨x, hx, rfl⟩ := List.mem_map.mp hy
    rw [h x hx]
    ring
  rw [sum_of_constant _ 0 hz]
  simp

theorem targetsDegenerate_of_constant (l : List ℚ) (c : ℚ) (hne : l ≠ [])
    (h : ∀ x ∈ l, x = c) : targetsDegenerate l = true := by
  unfold targetsDegenerate
  rw [popVariance_of_constant l c hne h]
  have hpos : (0:ℚ) < MIN_TARGET_STD ^ 2 := by norm_num [MIN_TARGET_STD]
  simp [hpos]

theorem tensorMean_of_constant (y : QMatrix) (c : ℚ) (hne : y.rows.flatten ≠ [])
    (h : ∀ x ∈ y.rows.flatten, x = c) : tensorMean y = c := by
  unfold tensorMean
  exact mean_of_constant _ c hne h

/-- C2: degenerate-data guard: fitting any guarded family on targets that
are all one constant `c` substitutes the constant-prediction fallback, whose
raw posterior then returns mean `c` and variance `1` for every candidate —
regardless of the originally configured family (`σ`, `famFit`, `famPost`,
and the pre-fit state are all universal).  The guarded families are all
marginal, so the guard's own flag is `false`. -/
theorem constant_targets_guard {σ : Type}
    (famFit : List (List ℚ) → QMatrix → σ)
    (famPost : σ → List (List ℚ) → List ℚ × RawCov)
    (s : SplitModelState σ) (X : List (List ℚ)) (Y : QMatrix) (c : ℚ)
    (cands : List (List ℚ))
    (hne : Y.rows.flatten ≠ [])
    (hconst : ∀ x ∈ Y.rows.flatten, x = c) :
    SplitModel.rawPosterior famPost false
        (SplitModel.fitInner famFit s X Y) cands =
      (List.replicate cands.length c,
       .variance (List.replicate cands.length 1)) := by
  have hdeg : targetsDegenerate (ravel Y) = true :=
    targetsDegenerate_of_constant _ c (by simpa [ravel] using hne)
      (by simpa [ravel] using hconst)
  have hmean : tensorMean Y = c := tensorMean_of_constant Y c hne hconst
  have hfit : SplitModel.fitInner famFit s X Y = .fallback ⟨c⟩ := by
    unfold SplitModel.fitInner
    simp [hdeg, MeanPredictionModel.fitted, hmean]
  rw [hfit]
  unfold SplitModel.rawPosterior MeanPredictionModel.rawPosterior
  simp

/-- C2 witness: targets all `7.0` on an (abstract) originally configured
family; three training rows, two candidates. -/
theorem constant_targets_guard_witness :
    ((⟨[[7], [7], [7]], 1⟩ : QMatrix).rows.flatten ≠ []) ∧
    (∀ x ∈ (⟨[[7], [7], [7]], 1⟩ : QMatrix).rows.flatten, x = (7:ℚ)) ∧
    SplitModel.rawPosterior (fun (_ : Unit) _ => ([], .variance [])) false
        (SplitModel.fitInner (fun _ _ => ()) (.original ()) [[0]]
          ⟨[[7], [7], [7]], 1⟩) [[1], [2]] =
      (List.replicate 2 7, .variance (List.replicate 2 1)) :=
  ⟨by decide, by decide,
   constant_targets_guard (fun _ _ => ()) (fun _ _ => ([], .variance []))
     (.original ()) [[0]] ⟨[[7], [7], [7]], 1⟩ 7 [[1], [2]]
     (by decide) (by decide)⟩

/-- C9: fallback stickiness: once a fit observed degenerate targets and
substituted the constant-prediction fallback, every later `fit` on the same
guard instance — with targets of arbitrary spread — again fits the fallback;
the substitution is never undone across refits. -/
theorem fallback_never_undone {σ : Type}
    (famFit : List (List ℚ) → QMatrix → σ)
    (s : SplitModelState σ) (X : List (List ℚ)) (Y : QMatrix)
    (hdeg : targetsDegenerate (ravel Y) = true)
    (fits : List (List (List ℚ) × QMatrix)) :
    ∃ m : MeanPredictionModel,
      fits.foldl (fun st xy => SplitModel.fitInner famFit st xy.1 xy.2)
        (SplitModel.fitInner famFit s X Y) = .fallback m := by
  have hstep : ∀ (mm : MeanPredictionModel) (x : List (List ℚ)) (y : QMatrix),
      SplitModel.fitInner famFit (.fallback mm) x y =
        .fallback (MeanPredictionModel.fitted y) := by
    intro mm x y
    unfold SplitModel.fitInner
    by_cases hd : targetsDegenerate (ravel y) <;> simp [hd]
  have hinit : SplitModel.fitInner famFit s X Y =
      .fallback (MeanPredictionModel.fitted Y) := by
    unfold SplitModel.fitInner
    simp [hdeg]
  suffices hgen : ∀ (rest : List (List (List ℚ) × QMatrix))
      (st : SplitModelState σ), (∃ mm, st = .fallback mm) →
      ∃ m, rest.foldl (fun st xy => SplitModel.fitInner famFit st xy.1 xy.2) st
        = .fallback m by
    exact hgen fits _ ⟨_, hinit⟩
  intro rest
  induction rest with
  | nil =>
    intro st hst
    simpa using hst
  | cons p t ih =>
    intro st hst
    obtain ⟨mm, rfl⟩ := hst
    exact ih _ ⟨_, hstep mm p.1 p.2⟩

/-- C9 witness: a degenerate first fit followed by a wide-spread refit still
leaves the fallback active. -/
theorem fallback_never_undone_witness :
    (targetsDegenerate (ravel ⟨[[7]], 1⟩) = true) ∧
    ∃ m : MeanPredictionModel,
      [([[1]], (⟨[[1], [9]], 1⟩ : QMatrix))].foldl
        (fun st xy => SplitModel.fitInner (fun _ _ => ()) st xy.1 xy.2)
        (SplitModel.fitInner (fun _ _ => ()) (.original ()) [[0]] ⟨[[7]], 1⟩)
        = .fallback m :=
  ⟨targetsDegenerate_of_constant _ 7 (by simp [ravel]) (by simp [ravel]),
   fallback_never_undone (fun _ _ => ()) (.original ()) [[0]] ⟨[[7]], 1⟩
     (targetsDegenerate_of_constant _ 7 (by simp [ravel]) (by simp [ravel]))
     [([[1]], ⟨[[1], [9]], 1⟩)]⟩

/-- C10: fitting a guarded family on a single observation `y = [[c]]` always
activates the constant-prediction fallback (the population standard
deviation of one value is `0 < 1e-6`), so the raw posterior mean is `c` for
every candidate and the raw posterior variance is `1` per candidate. -/
theorem single_observation_fallback {σ : Type}
    (famFit : List (List ℚ) → QMatrix → σ)
    (famPost : σ → List (List ℚ) → List ℚ × RawCov)
    (s : SplitModelState σ) (X : List (List ℚ)) (c : ℚ)
    (cands : List (List ℚ)) :
    SplitModel.fitInner famFit s X ⟨[[c]], 1⟩ = .fallback ⟨c⟩ ∧
    SplitModel.rawPosterior famPost false
        (SplitModel.fitInner famFit s X ⟨[[c]], 1⟩) cands =
      (List.replicate cands.length c,
       .variance (List.replicate cands.length 1)) := by
  have hdeg : targetsDegenerate (ravel ⟨[[c]], 1⟩) = true := by
    apply targetsDegenerate_of_constant _ c <;> simp [ravel]
  have hmean : tensorMean ⟨[[c]], 1⟩ = c := by
    unfold tensorMean
    simp
  have hfit : SplitModel.fitInner famFit s X ⟨[[c]], 1⟩ = .fallback ⟨c⟩ := by
    unfold SplitModel.fitInner
    simp [hdeg, MeanPredictionModel.fitted, hmean]
  refine ⟨hfit, ?_⟩
  rw [hfit]
  unfold SplitModel.rawPosterior MeanPredictionModel.rawPosterior
  simp

end Baybe
